import Mathlib

/-!
Verification of the persistence layer of the `aiframe` repository.

We shallowly embed the persistence subsystem: the two entity-store
adapters (`PostgresAdapter` in `src/core/persistence/event-store.ts` and
`SQLiteAdapter`), the adapter factory (`src/core/persistence/factory.ts`),
the migration runner (`src/core/persistence/migrations/runner.ts`) and the
Postgres-backed `EventStore` append path.

Stored documents are modelled as flat association lists of JSON scalar
values (the shape the adapters' `query` filters operate on); tables are
lists of `(key, document)` rows; the SQL statements issued by the
TypeScript code are embedded by their effect on this table state.
-/

namespace Aiframe

/-- A JSON scalar value, the leaf values a flat filter compares against. -/
inductive JsonVal where
  | str (s : String)
  | num (n : Int)
  | bool (b : Bool)
  | null
  deriving DecidableEq, Repr

/-- A flat JSON document: field name to scalar value. -/
abbrev Doc := List (String × JsonVal)

/-- Field lookup inside a stored document. -/
def docField (d : Doc) (k : String) : Option JsonVal :=
  (d.find? (fun p => p.1 = k)).map (·.2)

/-- A row of an entity table: `(key, data)` as created by both adapters'
`CREATE TABLE` (`key TEXT PRIMARY KEY, data ...`). -/
abbrev Table := List (String × Doc)

/-- The primary-key invariant of the entity tables: keys are unique. -/
def Table.wf (t : Table) : Prop := (t.map Prod.fst).Nodup

/-- The filter argument of `query(filter: unknown)`: either a JS object
(a flat mapping of field names to scalar values) or a non-object value
(`null`, `undefined`, a string, a number, ...). -/
inductive Filter where
  | obj (fields : List (String × JsonVal))
  | malformed
  deriving DecidableEq, Repr

/-- The field list a filter carries: empty for a non-object filter. -/
def Filter.fields : Filter → List (String × JsonVal)
  | .malformed => []
  | .obj fs => fs

/-!
The two engines compare a filter clause differently. Postgres's
`data->>'key' = $i` compares text: `->>` renders the JSON field as text
and node-postgres serializes the bound parameter as text. SQLite's
`json_extract(data, '$.key') = ?` compares typed values: `json_extract`
yields a TEXT or INTEGER storage-class value (booleans as 1/0) and the
sqlite3 driver binds the parameter likewise. The decimal numeral used on
the text side is defined here explicitly (fuel-structured digits, so that
it evaluates by kernel reduction) and proven injective further below.
-/

/-- Little-endian base-10 digits with structural fuel (`natDigitsAux n n`
computes the digits of `n`; proven equal to `Nat.digits 10` below). -/
def natDigitsAux : Nat → Nat → List Nat
  | 0, _ => []
  | _ + 1, 0 => []
  | fuel + 1, n + 1 => ((n + 1) % 10) :: natDigitsAux fuel ((n + 1) / 10)

/-- Little-endian base-10 digits of a natural number. -/
def natDigits (n : Nat) : List Nat :=
  natDigitsAux n n

/-- The decimal numeral of a natural number, most significant digit
first. -/
def natDecimal (n : Nat) : String :=
  if n = 0 then ("0")
  else String.mk ((natDigits n).map Nat.digitChar).reverse

/-- The decimal numeral of an integer, with a leading minus sign when
negative: the text in which both JSON/Postgres render a number field and
the JavaScript driver serializes a number parameter. -/
def intDecimal : Int → String
  | .ofNat n => natDecimal n
  | .negSucc m => "-" ++ natDecimal (m + 1)

/-- An SQLite storage-class value as produced by `json_extract` and by
parameter binding: TEXT, INTEGER, or NULL. -/
inductive SqlVal where
  | text (s : String)
  | int (n : Int)
  | nullv
  deriving DecidableEq, Repr

/-- SQLite `=` on storage-class values: NULL compares equal to nothing
(not even NULL), and TEXT and INTEGER are distinct storage classes that
never compare equal. -/
def sqlEq : SqlVal → SqlVal → Bool
  | .text a, .text b => a = b
  | .int a, .int b => a = b
  | _, _ => false

/-- Two scalar values are compared within one representation: same JSON
scalar type on both sides, or a null on either side (which matches
nothing on both engines). Cross-typed comparisons are where the engines'
text and typed semantics can disagree. -/
def typedAlike : JsonVal → JsonVal → Bool
  | .str _, .str _ => true
  | .num _, .num _ => true
  | .bool _, .bool _ => true
  | .null, _ => true
  | _, .null => true
  | _, _ => false

namespace PostgresAdapter

/-- The text `data->>'key'` yields for a JSON field value: the string
itself, the decimal numeral of a number, `true`/`false` for a boolean,
and SQL `NULL` (`none`) for a JSON null. -/
def pgFieldText : JsonVal → Option String
  | .str s => some s
  | .num n => some (intDecimal n)
  | .bool b => some (if b then ("true") else ("false"))
  | .null => none

/-- The text node-postgres sends for a bound parameter value: strings as
themselves, numbers as their decimal numeral, booleans as
`true`/`false`, and JS `null` as SQL `NULL` (`none`). -/
def pgParamText : JsonVal → Option String
  | .str s => some s
  | .num n => some (intDecimal n)
  | .bool b => some (if b then ("true") else ("false"))
  | .null => none

/-- Model of `PostgresAdapter.save`: the upsert
`INSERT ... ON CONFLICT (key) DO UPDATE SET data = $2` — replaces the
data of an existing row for the key, otherwise inserts a new row. -/
def save (k : String) (v : Doc) (t : Table) : Table :=
  if t.any (fun r => r.1 = k) then
    t.map (fun r => if r.1 = k then (r.1, v) else r)
  else
    t ++ [(k, v)]

/-- Model of `PostgresAdapter.load`: `SELECT data ... WHERE key = $1`, returning
`null` when `result.rows.length === 0`. -/
def load (k : String) (t : Table) : Option Doc :=
  (t.find? (fun r => r.1 = k)).map (·.2)

/-- Model of `PostgresAdapter.delete`: `DELETE ... WHERE key = $1`. -/
def delete (k : String) (t : Table) : Table :=
  t.filter (fun r => r.1 ≠ k)

/-- Model of `PostgresAdapter.buildJsonbConditions`: a non-object filter yields the
condition `1=1` with no parameters (`none` below models `1=1`, i.e. an
unconditional match); an object filter yields one
`data->>'key' = $i` clause per entry, `1=1` when there are none. -/
def buildJsonbConditions (f : Filter) : Option (List (String × JsonVal)) :=
  match f with
  | .malformed => none
  | .obj fields => if fields.isEmpty then none else some fields

/-- Evaluation of one `data->>'key' = $i` clause on a row: `->>` renders
the extracted field as text (SQL `NULL` for an absent field or a JSON
null), the parameter is serialized as text, and the two texts are
compared; a `NULL` on either side never compares equal. Because the
comparison is textual, a number field matches a string parameter holding
its numeral. -/
def jsonbClauseHolds (d : Doc) (c : String × JsonVal) : Bool :=
  match (docField d c.1).bind pgFieldText, pgParamText c.2 with
  | some ft, some pt => ft = pt
  | _, _ => false

/-- A row satisfies the built WHERE conditions (`1=1` holds of every row,
a clause list holds when every clause does, joined by `AND`). -/
def rowMatches (conds : Option (List (String × JsonVal))) (d : Doc) : Bool :=
  match conds with
  | none => true
  | some cs => cs.all (jsonbClauseHolds d)

/-- Model of `PostgresAdapter.query`: builds the JSONB conditions from the filter
and returns the `data` column of every matching row. -/
def query (f : Filter) (t : Table) : List Doc :=
  let conds := buildJsonbConditions f
  (t.filter (fun r => rowMatches conds r.2)).map (·.2)

end PostgresAdapter

namespace SQLiteAdapter

/-- Model of `SQLiteAdapter.save`: `INSERT OR REPLACE INTO ... VALUES (?, ?)` —
SQLite deletes any conflicting row and inserts the new one. -/
def save (k : String) (v : Doc) (t : Table) : Table :=
  t.filter (fun r => r.1 ≠ k) ++ [(k, v)]

/-- Model of `SQLiteAdapter.load`: `SELECT data ... WHERE key = ?` via `stmt.get`,
resolving `null` when no row is returned. -/
def load (k : String) (t : Table) : Option Doc :=
  (t.find? (fun r => r.1 = k)).map (·.2)

/-- Model of `SQLiteAdapter.delete`: `DELETE FROM ... WHERE key = ?`. -/
def delete (k : String) (t : Table) : Table :=
  t.filter (fun r => r.1 ≠ k)

/-- Model of `SQLiteAdapter.buildQueryConditions`: a non-object filter yields the
condition `1=1` with no parameters (modelled as `none`); an object filter
yields one `json_extract(data, '$.key') = ?` clause per entry, `1=1` when
there are none. -/
def buildQueryConditions (f : Filter) : Option (List (String × JsonVal)) :=
  match f with
  | .malformed => none
  | .obj fields => if fields.isEmpty then none else some fields

/-- The storage-class value `json_extract(data, '$.key')` yields for a
JSON field: strings as TEXT, numbers as INTEGER, booleans as INTEGER 1/0,
a JSON null as NULL. -/
def sqliteValOfJson : JsonVal → SqlVal
  | .str s => .text s
  | .num n => .int n
  | .bool b => .int (if b then 1 else 0)
  | .null => .nullv

/-- The storage-class value the sqlite3 driver binds for a JS parameter:
strings as TEXT, numbers as INTEGER, booleans as INTEGER 1/0, `null` as
NULL. -/
def sqliteBindParam : JsonVal → SqlVal
  | .str s => .text s
  | .num n => .int n
  | .bool b => .int (if b then 1 else 0)
  | .null => .nullv

/-- Evaluation of one `json_extract(data, '$.key') = ?` clause on a row:
the extracted storage-class value (NULL for an absent path) is compared
with the bound parameter under SQLite `=`; NULL matches nothing, and
TEXT never equals INTEGER, so a number field does not match a string
parameter, but a boolean parameter matches an INTEGER 1/0 field. -/
def extractClauseHolds (d : Doc) (c : String × JsonVal) : Bool :=
  sqlEq
    (match docField d c.1 with
      | some v => sqliteValOfJson v
      | none => .nullv)
    (sqliteBindParam c.2)

/-- A row satisfies the built WHERE conditions. -/
def rowMatches (conds : Option (List (String × JsonVal))) (d : Doc) : Bool :=
  match conds with
  | none => true
  | some cs => cs.all (extractClauseHolds d)

/-- Model of `SQLiteAdapter.query`: builds the conditions from the filter and
returns the parsed `data` column of every matching row. -/
def query (f : Filter) (t : Table) : List Doc :=
  let conds := buildQueryConditions f
  (t.filter (fun r => rowMatches conds r.2)).map (·.2)

end SQLiteAdapter

/-!
Transaction wrappers. A callback is embedded as a function from the table
state to either a new table state and a result (success) or an error
(`throw`). Whether the `ROLLBACK` statement itself fails is an input of
the model (`rollbackFault`): it stands for the connection's behaviour at
the moment rollback is attempted. Errors are an arbitrary type `ε`.
-/

/-- Outcome of a transaction wrapper: the value returned or error thrown,
the table state afterwards, and whether the connection was released back
to the pool. -/
structure TxOutcome (ε ρ : Type) where
  result : Except ε ρ
  finalTable : Table
  released : Bool

namespace PostgresAdapter

/-- Model of `PostgresAdapter.withTransaction`:
`try { BEGIN; r = callback(client); COMMIT; return r }
 catch (error) { await client.query('ROLLBACK'); throw error }
 finally { client.release(); }`.
When the callback succeeds, `COMMIT` makes its writes visible. When the
callback throws, `ROLLBACK` restores the pre-transaction state; if the
`ROLLBACK` statement itself fails (`rollbackFault = some re`), that
rejection escapes the `catch` block in place of the original error. The
`finally` releases the connection on every path. -/
def withTransaction (rollbackFault : Option ε) (t : Table)
    (callback : Table → Except ε (Table × ρ)) : TxOutcome ε ρ :=
  match callback t with
  | .ok (t2, r) => ⟨.ok r, t2, true⟩
  | .error e =>
    match rollbackFault with
    | none => ⟨.error e, t, true⟩
    | some re => ⟨.error re, t, true⟩

end PostgresAdapter

namespace SQLiteAdapter

/-- Model of `SQLiteAdapter.withTransaction`: `BEGIN`, run the callback,
`COMMIT` on success; on a thrown error, `ROLLBACK` with a completion
callback that ignores the rollback's own error and rejects with the
original error. There is no pool, so no release flag is modelled (kept
`true` for a uniform outcome type). -/
def withTransaction (rollbackFault : Option ε) (t : Table)
    (callback : Table → Except ε (Table × ρ)) : TxOutcome ε ρ :=
  match callback t with
  | .ok (t2, r) => ⟨.ok r, t2, true⟩
  | .error e =>
    match rollbackFault with
    | none => ⟨.error e, t, true⟩
    | some _ => ⟨.error e, t, true⟩

end SQLiteAdapter

namespace PersistenceFactory

/-- Value of the `type` field of `AdapterConfig`
(`'postgres' | 'sqlite'`; `other` stands for any value outside the
declared union, which the `switch` sends to its `default` arm). -/
inductive AdapterType where
  | postgres
  | sqlite
  | other (s : String)
  deriving DecidableEq, Repr

/-- Model of `AdapterConfig` from `factory.ts`: `type` and `database` are
required, everything else optional. -/
structure AdapterConfig where
  type : AdapterType
  database : String
  table : Option String := none
  schema : Option String := none
  host : Option String := none
  port : Option Int := none
  user : Option String := none
  password : Option String := none
  filename : Option String := none
  deriving DecidableEq, Repr

/-- Configuration with which a `PostgresAdapter` instance is constructed. -/
structure PgConfig where
  host : String
  port : Int
  database : String
  user : String
  password : String
  table : String
  schema : String
  deriving DecidableEq, Repr

/-- Configuration with which a `SQLiteAdapter` instance is constructed. -/
structure SqliteConfig where
  filename : String
  table : String
  deriving DecidableEq, Repr

/-- A constructed adapter instance, identified by its construction data. -/
inductive Adapter where
  | postgres (cfg : PgConfig)
  | sqlite (cfg : SqliteConfig)
  deriving DecidableEq, Repr

/-- The static `instances` map of `PersistenceFactory`, as an insertion
ordered association list. -/
abbrev Registry := List (String × Adapter)

/-- Model of `PersistenceFactory.createAdapter`: return the registered
adapter when the name is taken; otherwise construct by `config.type`
(filling Postgres defaults, requiring `filename` for SQLite, rejecting an
unsupported type) and register it. Errors are the thrown messages. -/
def createAdapter (instances : Registry) (name : String)
    (config : AdapterConfig) : Except String (Adapter × Registry) :=
  match instances.find? (fun p => p.1 = name) with
  | some p => .ok (p.2, instances)
  | none =>
    match config.type with
    | .postgres =>
      let adapter := Adapter.postgres
        ⟨config.host.getD ("localhost"), config.port.getD 5432,
         config.database, config.user.getD ("postgres"),
         config.password.getD ("postgres"), config.table.getD name,
         config.schema.getD ("public")⟩
      .ok (adapter, instances ++ [(name, adapter)])
    | .sqlite =>
      match config.filename with
      | none => .error ("Missing required SQLite configuration: filename")
      | some fn =>
        let adapter := Adapter.sqlite ⟨fn, config.table.getD name⟩
        .ok (adapter, instances ++ [(name, adapter)])
    | .other s => .error ("Unsupported adapter type: " ++ s)

end PersistenceFactory

/-!
Migration runner. A migration unit's `up`/`down` procedures are embedded
by their outcome alone (`upOk`/`downOk`: whether the procedure resolves or
throws); their side effects on application tables are outside the
migration-metadata state this model tracks. The metadata table
(`schema.migrations`) is the list of `MigrationRecord` rows in insertion
order.
-/

namespace MigrationRunner

/-- A migration unit as validated by `isValidMigration`, with the
procedures abstracted to their outcomes. -/
structure Migration where
  id : String
  name : String
  timestamp : Int
  upOk : Bool
  downOk : Bool
  deriving DecidableEq, Repr

/-- A row of the migration metadata table. -/
structure MigrationRecord where
  id : String
  name : String
  timestamp : Int
  batch : Int
  deriving DecidableEq, Repr

/-- Status field of a `MigrationResult`. -/
inductive MStatus where
  | success
  | error
  deriving DecidableEq, Repr

/-- Model of `MigrationResult` (duration omitted; the error carried on
failure is determined by the failing migration). -/
structure MigrationResult where
  id : String
  name : String
  status : MStatus
  deriving DecidableEq, Repr

/-- Stable insertion of an element into a list ascending in `key`,
placing it after every element whose key is less than or equal — the
position JavaScript's stable `sort` with comparator
`(a, b) => key(a) - key(b)` gives an element relative to earlier ones. -/
def insertByKey (key : α → Int) (a : α) : List α → List α
  | [] => [a]
  | x :: xs => if key x ≤ key a then x :: insertByKey key a xs else a :: x :: xs

/-- Stable sort by an integer key, modelling JavaScript
`sort((a, b) => a.timestamp - b.timestamp)`. -/
def stableSortBy (key : α → Int) (l : List α) : List α :=
  l.foldl (fun acc a => insertByKey key a acc) []

/-- Model of `loadMigrations`: the discovered valid units sorted by
timestamp ascending. -/
def loadMigrations (ms : List Migration) : List Migration :=
  stableSortBy (fun m => m.timestamp) ms

/-- Model of `getAppliedMigrations`: the metadata rows ordered by
`timestamp ASC` (`ORDER BY timestamp ASC`). -/
def getAppliedMigrations (table : List MigrationRecord) : List MigrationRecord :=
  stableSortBy (fun r => r.timestamp) table

/-- Latest batch number as computed in `up`:
`appliedMigrations.length > 0 ? Math.max(...batches) : 0`. -/
def latestBatchUp (applied : List MigrationRecord) : Int :=
  match applied.map (fun r => r.batch) with
  | [] => 0
  | b :: bs => bs.foldl max b

/-- Latest batch number as computed in `down`:
`Math.max(...batches)` with no emptiness guard — `none` models the
`-Infinity` produced on an empty applied list, which no record's `batch`
ever equals. -/
def latestBatchDown (applied : List MigrationRecord) : Option Int :=
  match applied.map (fun r => r.batch) with
  | [] => none
  | b :: bs => some (bs.foldl max b)

/-- The metadata row inserted for a migration applied in a batch. -/
def recordOf (m : Migration) (batch : Int) : MigrationRecord :=
  ⟨m.id, m.name, m.timestamp, batch⟩

/-- Pending migrations in `up`: the loaded (timestamp-sorted) units
without a matching applied record. -/
def pendingOf (applied : List MigrationRecord) (ms : List Migration) :
    List Migration :=
  (loadMigrations ms).filter (fun m => ¬ applied.any (fun am => am.id = m.id))

/-- The `for` loop of `up`: per migration, `BEGIN`, run `up`, insert the
applied record, `COMMIT`; on a throw, `ROLLBACK` (the record insert is
undone with it), push an error result and `break`. -/
def upLoop (batch : Int) :
    List Migration → List MigrationRecord →
    List MigrationResult × List MigrationRecord
  | [], table => ([], table)
  | m :: rest, table =>
    if m.upOk then
      let next := upLoop batch rest (table ++ [recordOf m batch])
      (⟨m.id, m.name, .success⟩ :: next.1, next.2)
    else
      ([⟨m.id, m.name, .error⟩], table)

/-- Model of `MigrationRunner.up`: read the applied records, compute the
next batch number, and run the pending migrations through the loop. -/
def up (table : List MigrationRecord) (ms : List Migration) :
    List MigrationResult × List MigrationRecord :=
  let applied := getAppliedMigrations table
  upLoop (latestBatchUp applied + 1) (pendingOf applied ms) table

/-- Model of JavaScript `Array.prototype.slice(start)` for an integer
`start`: a negative start counts from the end (clamped at 0), a
non-negative start (including `-0`, which is `0`) counts from the front
(clamped at the length). -/
def jsSlice (l : List α) (start : Int) : List α :=
  if start < 0 then l.drop (max ((l.length : Int) + start) 0).toNat
  else l.drop (min start (l.length : Int)).toNat

/-- The records `down(steps)` selects:
`applied.filter(m => m.batch === latestBatch).slice(-steps).reverse()`. -/
def rollbackSelection (steps : Int) (applied : List MigrationRecord) :
    List MigrationRecord :=
  match latestBatchDown applied with
  | none => []
  | some lb => (jsSlice (applied.filter (fun r => r.batch = lb)) (-steps)).reverse

/-- The `for` loop of `down`: per selected record, look the unit up by id
(`continue` when absent); `BEGIN`, run `down`, delete the applied record,
`COMMIT`; on a throw, `ROLLBACK` (the record survives), push an error
result and `break`. -/
def downLoop (ms : List Migration) :
    List MigrationRecord → List MigrationRecord →
    List MigrationResult × List MigrationRecord
  | [], table => ([], table)
  | r :: rest, table =>
    match ms.find? (fun m => m.id = r.id) with
    | none => downLoop ms rest table
    | some m =>
      if m.downOk then
        let next := downLoop ms rest (table.filter (fun x => x.id ≠ m.id))
        (⟨m.id, m.name, .success⟩ :: next.1, next.2)
      else
        ([⟨m.id, m.name, .error⟩], table)

/-- Model of `MigrationRunner.down(steps)`: select the tail of the latest
batch and roll the selection back in reverse-application order. -/
def down (steps : Int) (table : List MigrationRecord) (ms : List Migration) :
    List MigrationResult × List MigrationRecord :=
  downLoop (loadMigrations ms) (rollbackSelection steps (getAppliedMigrations table)) table

end MigrationRunner

/-!
Event store (the Postgres-backed `EventStore` class). Events are embedded
by stream, assigned version and type; the `events` table is the list of
inserted rows. `append` is modelled twice: as a sequential state
transformer, and as a list of the statements it issues in order, executed
under an explicit interleaving of two concurrent callers — the code runs
the `SELECT COALESCE(MAX(version), -1)` on the pool before `BEGIN`, so
the read is a separate step outside the transaction.
-/

namespace EventStore

/-- A row of the `events` table (the columns the claims depend on). -/
structure EventRow where
  streamId : String
  version : Int
  type : String
  deriving DecidableEq, Repr

/-- The `events` table in insertion order. -/
abbrev EventDb := List EventRow

/-- Model of the version read in `append`:
`SELECT COALESCE(MAX(version), -1) FROM events WHERE stream_id = $1`. -/
def maxVersion (db : EventDb) (sid : String) : Int :=
  match (db.filter (fun r => r.streamId = sid)).map (fun r => r.version) with
  | [] => -1
  | v :: vs => vs.foldl max v

/-- Sequential model of `EventStore.append`: read the maximum version,
start at `max + 1`, insert the batch with consecutive versions in array
order (events carry just their `type` here). -/
def append (db : EventDb) (sid : String) (events : List String) : EventDb :=
  let startVersion := maxVersion db sid + 1
  db ++ events.enum.map (fun p => ⟨sid, startVersion + (p.1 : Int), p.2⟩)

/-- One statement issued by `append`, in the order the code awaits them:
the max-version read on the pool, then `BEGIN`, the inserts, `COMMIT`. -/
inductive AppendOp where
  | readMaxVersion
  | beginTx
  | insert (i : Nat)
  | commitTx
  deriving DecidableEq, Repr

/-- The statement sequence of one `append` call for a batch of `n`
events, in source order: the version read comes before `BEGIN`. -/
def appendOps (n : Nat) : List AppendOp :=
  [.readMaxVersion, .beginTx] ++ (List.range n).map .insert ++ [.commitTx]

/-- One in-flight `append` caller: its stream, its event batch, the
statements it has not yet executed, and the `startVersion` local (set
when its read executes). -/
structure Appender where
  streamId : String
  events : List String
  pending : List AppendOp
  startVersion : Option Int
  deriving DecidableEq, Repr

/-- An `append` caller about to start on the given stream and batch. -/
def Appender.mk0 (sid : String) (events : List String) : Appender :=
  ⟨sid, events, appendOps events.length, none⟩

/-- Effect of one statement of `append` on the shared `events` table and
the caller's locals: the read sets `startVersion := max + 1`; insert `i`
writes version `startVersion + i`; `BEGIN`/`COMMIT` only delimit the
transaction. -/
def execOp (db : EventDb) (a : Appender) (op : AppendOp) :
    EventDb × Appender :=
  match op with
  | .readMaxVersion =>
    (db, ⟨a.streamId, a.events, a.pending, some (maxVersion db a.streamId + 1)⟩)
  | .beginTx => (db, a)
  | .insert i =>
    match a.startVersion with
    | some s => (db ++ [⟨a.streamId, s + (i : Int), a.events.getD i ""⟩], a)
    | none => (db, a)
  | .commitTx => (db, a)

/-- Run two concurrent `append` callers under an explicit schedule:
`true` steps the first caller, `false` the second; a step on a finished
caller does nothing. -/
def runSchedule : List Bool → EventDb → Appender → Appender → EventDb
  | [], db, _, _ => db
  | c :: rest, db, a, b =>
    if c then
      match a.pending with
      | [] => runSchedule rest db a b
      | op :: ops =>
        let step := execOp db ⟨a.streamId, a.events, ops, a.startVersion⟩ op
        runSchedule rest step.1 step.2 b
    else
      match b.pending with
      | [] => runSchedule rest db a b
      | op :: ops =>
        let step := execOp db ⟨b.streamId, b.events, ops, b.startVersion⟩ op
        runSchedule rest step.1 a step.2

end EventStore

end Aiframe

namespace Aiframe

/-- Claim C2 refuted (code bug): a non-object filter makes both
`buildJsonbConditions` and `buildQueryConditions` return the condition
`1=1`, so `query` returns every stored row — evaluated here at a store
holding one document, where both adapters return that document instead of
the empty list the spec and the adapters' own tests require. -/
theorem malformed_filter_matches_all_rows :
    PostgresAdapter.query .malformed [(("k"), [(("a"), JsonVal.num 1)])]
        = [[(("a"), JsonVal.num 1)]]
  ∧ SQLiteAdapter.query .malformed [(("k"), [(("a"), JsonVal.num 1)])]
        = [[(("a"), JsonVal.num 1)]]
  ∧ ([[(("a"), JsonVal.num 1)]] : List Doc) ≠ ([] : List Doc) := by
  refine ⟨rfl, rfl, by decide⟩

/-- Claim C5 refuted on the rollback-failure path (code bug): when the
callback throws (error `0`) and the `ROLLBACK` statement itself fails
(error `1`), `PostgresAdapter.withTransaction` propagates the rollback
failure in place of the original error, because the `catch` block awaits
the rollback unguarded; the connection is still released, and
`SQLiteAdapter.withTransaction` does preserve the original error. -/
theorem rollback_failure_replaces_original_error :
    (PostgresAdapter.withTransaction (some 1) ([] : Table)
        (fun _ => (Except.error 0 : Except Nat (Table × Unit)))).result = Except.error 1
  ∧ (PostgresAdapter.withTransaction (some 1) ([] : Table)
        (fun _ => (Except.error 0 : Except Nat (Table × Unit)))).result ≠ Except.error 0
  ∧ (PostgresAdapter.withTransaction (some 1) ([] : Table)
        (fun _ => (Except.error 0 : Except Nat (Table × Unit)))).released = true
  ∧ (SQLiteAdapter.withTransaction (some 1) ([] : Table)
        (fun _ => (Except.error 0 : Except Nat (Table × Unit)))).result = Except.error 0 := by
  refine ⟨rfl, ?_, rfl, rfl⟩
  intro h
  simp [PostgresAdapter.withTransaction] at h

/-- Claim C9: when an adapter is already registered under a name,
`createAdapter` returns that adapter and leaves the registry unchanged,
for every config — even one with an unsupported type or missing required
fields — without throwing. -/
theorem createAdapter_returns_registered (instances : PersistenceFactory.Registry)
    (name : String) (config : PersistenceFactory.AdapterConfig)
    (p : String × PersistenceFactory.Adapter)
    (h : instances.find? (fun q => q.1 = name) = some p) :
    PersistenceFactory.createAdapter instances name config = .ok (p.2, instances) := by
  unfold PersistenceFactory.createAdapter
  rw [h]

/-- Witness for C9: a registry holding one adapter, a config whose type
is outside the supported union and whose `filename` is absent. -/
theorem createAdapter_returns_registered_witness :
    PersistenceFactory.createAdapter
        [(("users"), PersistenceFactory.Adapter.sqlite ⟨("db.sqlite"), ("users")⟩)]
        ("users")
        ⟨PersistenceFactory.AdapterType.other ("bogus"), ("appdb"),
          none, none, none, none, none, none, none⟩
      = .ok (PersistenceFactory.Adapter.sqlite ⟨("db.sqlite"), ("users")⟩,
        [(("users"), PersistenceFactory.Adapter.sqlite ⟨("db.sqlite"), ("users")⟩)]) :=
  createAdapter_returns_registered _ _ _
    (("users"), PersistenceFactory.Adapter.sqlite ⟨("db.sqlite"), ("users")⟩) (by rfl)

/-- Claim C1 refuted in its transaction part (code bug): `append` issues
the `SELECT COALESCE(MAX(version), -1)` read before `BEGIN` (the read's
index in the statement sequence precedes the transaction start), and
under an interleaving of two concurrent appenders to one stream in which
both reads execute before either transaction, both callers assign version
0 — the events table ends with two rows of version 0 for the stream. -/
theorem append_reads_version_outside_transaction :
    ((EventStore.appendOps 1).indexOf EventStore.AppendOp.readMaxVersion
      < (EventStore.appendOps 1).indexOf EventStore.AppendOp.beginTx)
  ∧ (((EventStore.runSchedule [true, false, true, true, true, false, false, false] []
        (EventStore.Appender.mk0 ("s") [("e1")])
        (EventStore.Appender.mk0 ("s") [("e2")])).filter
        (fun r => r.streamId == ("s") && r.version == 0)).length = 2) := by
  refine ⟨by decide, by decide⟩

end Aiframe


namespace Aiframe

namespace PostgresAdapter

theorem find?_map_upsert (k : String) (v : Doc) :
    ∀ t : Table,
      (t.map (fun r => if r.1 = k then (r.1, v) else r)).find? (fun r => r.1 = k)
        = (t.find? (fun r => r.1 = k)).map (fun _ => (k, v))
  | [] => rfl
  | r :: rs => by
    by_cases hk : r.1 = k
    · simp [List.find?_cons, hk]
    · simp [List.find?_cons, hk, find?_map_upsert k v rs]

theorem load_save_self (k : String) (v : Doc) (t : Table) :
    load k (save k v t) = some v := by
  unfold load save
  split
  · next ht =>
    rw [find?_map_upsert]
    obtain ⟨x, hx, hpx⟩ := List.any_eq_true.mp ht
    cases hfind : t.find? (fun r => r.1 = k) with
    | none =>
      rw [List.find?_eq_none] at hfind
      exact absurd hpx (hfind x hx)
    | some y => simp [hfind]
  · next ht =>
    have hnone : t.find? (fun r => r.1 = k) = none := by
      rw [List.find?_eq_none]
      intro x hx hpx
      exact ht (List.any_eq_true.mpr ⟨x, hx, hpx⟩)
    simp [List.find?_append, hnone, List.find?]

theorem countP_key_of_wf (k : String) :
    ∀ t : Table, Table.wf t →
      t.countP (fun r => r.1 = k)
        = if t.any (fun r => r.1 = k) then 1 else 0
  | [], _ => rfl
  | r :: rs, h => by
    have h1 : r.1 ∉ rs.map Prod.fst := (List.nodup_cons.mp h).1
    have h2 : Table.wf rs := (List.nodup_cons.mp h).2
    by_cases hk : r.1 = k
    · have hz : rs.countP (fun x => x.1 = k) = 0 := by
        rw [List.countP_eq_zero]
        intro a ha
        simp only [decide_eq_true_eq]
        intro hak
        exact h1 (List.mem_map.mpr ⟨a, ha, by rw [hak, hk]⟩)
      simp [List.countP_cons, List.any_cons, hk, hz]
    · have hkb : (decide (r.1 = k)) = false := by simp [hk]
      simp only [List.countP_cons, List.any_cons, hkb, Bool.false_or, if_false,
        add_zero]
      exact countP_key_of_wf k rs h2

theorem countP_save (k : String) (v : Doc) (t : Table) (h : Table.wf t) :
    (save k v t).countP (fun r => r.1 = k) = 1 := by
  unfold save
  split
  · next ht =>
    rw [List.countP_map]
    have hcong : ∀ x ∈ t,
        ((fun r : String × Doc => decide (r.1 = k)) ∘
          (fun r => if r.1 = k then (r.1, v) else r)) x = true
          ↔ (fun r : String × Doc => decide (r.1 = k)) x = true := by
      intro x _
      by_cases hk : x.1 = k <;> simp [hk]
    rw [List.countP_congr hcong, countP_key_of_wf k t h, ht]
    simp
  · next ht =>
    rw [List.countP_append]
    have hz : t.countP (fun r => r.1 = k) = 0 := by
      rw [List.countP_eq_zero]
      intro a ha hak
      exact ht (List.any_eq_true.mpr ⟨a, ha, hak⟩)
    simp [hz, List.countP_cons]

theorem save_wf (k : String) (v : Doc) (t : Table) (h : Table.wf t) :
    Table.wf (save k v t) := by
  unfold save Table.wf
  split
  · next ht =>
    have hmap : (t.map (fun r => if r.1 = k then (r.1, v) else r)).map Prod.fst
        = t.map Prod.fst := by
      rw [List.map_map]
      apply List.map_congr_left
      intro x _
      by_cases hk : x.1 = k <;> simp [hk]
    rw [hmap]
    exact h
  · next ht =>
    rw [List.map_append]
    rw [List.nodup_append]
    refine ⟨h, List.nodup_singleton k, ?_⟩
    intro a ha hak
    have hak' : a = k := by simpa using hak
    obtain ⟨x, hx, hxk⟩ := List.mem_map.mp ha
    exact ht (List.any_eq_true.mpr ⟨x, hx, by simp [hxk, hak']⟩)

end PostgresAdapter

namespace SQLiteAdapter

theorem find?_filter_ne (k : String) (t : Table) :
    (t.filter (fun r => r.1 ≠ k)).find? (fun r => r.1 = k) = none := by
  rw [List.find?_eq_none]
  intro x hx
  have := (List.mem_filter.mp hx).2
  simpa using this

theorem load_replace_self (k : String) (v : Doc) (t : Table) :
    load k (save k v t) = some v := by
  unfold load save
  simp [List.find?_append, find?_filter_ne, List.find?]

theorem countP_replace (k : String) (v : Doc) (t : Table) :
    (save k v t).countP (fun r => r.1 = k) = 1 := by
  unfold save
  rw [List.countP_append]
  have hz : (t.filter (fun r => r.1 ≠ k)).countP (fun r => r.1 = k) = 0 := by
    rw [List.countP_eq_zero]
    intro a ha
    have := (List.mem_filter.mp ha).2
    simpa using this
  simp [hz, List.countP_cons]

end SQLiteAdapter

/-- Claim C6: on both adapters, `save(k, v1)` then `save(k, v2)` then
`load(k)` returns `v2`, and exactly one row exists for `k` afterwards —
save is an upsert with no insert/update distinction (the Postgres count
uses the table's primary-key invariant, unique keys). -/
theorem save_is_upsert (k : String) (v1 v2 : Doc) (t : Table) (h : Table.wf t) :
    PostgresAdapter.load k (PostgresAdapter.save k v2 (PostgresAdapter.save k v1 t)) = some v2
  ∧ (PostgresAdapter.save k v2 (PostgresAdapter.save k v1 t)).countP (fun r => r.1 = k) = 1
  ∧ SQLiteAdapter.load k (SQLiteAdapter.save k v2 (SQLiteAdapter.save k v1 t)) = some v2
  ∧ (SQLiteAdapter.save k v2 (SQLiteAdapter.save k v1 t)).countP (fun r => r.1 = k) = 1 :=
  ⟨PostgresAdapter.load_save_self k v2 _,
   PostgresAdapter.countP_save k v2 _ (PostgresAdapter.save_wf k v1 t h),
   SQLiteAdapter.load_replace_self k v2 _,
   SQLiteAdapter.countP_replace k v2 _⟩

/-- Witness for C6 at a concrete key, two concrete documents and the
empty table (whose keys are trivially unique). -/
theorem save_is_upsert_witness :
    PostgresAdapter.load ("a")
        (PostgresAdapter.save ("a") [(("x"), JsonVal.num 2)]
          (PostgresAdapter.save ("a") [(("x"), JsonVal.num 1)] []))
      = some [(("x"), JsonVal.num 2)]
  ∧ (PostgresAdapter.save ("a") [(("x"), JsonVal.num 2)]
        (PostgresAdapter.save ("a") [(("x"), JsonVal.num 1)] [])).countP
        (fun r => r.1 = ("a")) = 1
  ∧ SQLiteAdapter.load ("a")
        (SQLiteAdapter.save ("a") [(("x"), JsonVal.num 2)]
          (SQLiteAdapter.save ("a") [(("x"), JsonVal.num 1)] []))
      = some [(("x"), JsonVal.num 2)]
  ∧ (SQLiteAdapter.save ("a") [(("x"), JsonVal.num 2)]
        (SQLiteAdapter.save ("a") [(("x"), JsonVal.num 1)] [])).countP
        (fun r => r.1 = ("a")) = 1 :=
  save_is_upsert ("a") [(("x"), JsonVal.num 1)] [(("x"), JsonVal.num 2)] []
    List.nodup_nil

/-- Claim C7: on both adapters, `delete(k)` followed by `load(k)` returns
the not-found sentinel whether or not `k` existed; on an absent key,
`delete` is a no-op (the table is unchanged) and `load` returns the
not-found sentinel rather than failing. -/
theorem delete_then_load_not_found (k : String) (t : Table) :
    PostgresAdapter.load k (PostgresAdapter.delete k t) = none
  ∧ SQLiteAdapter.load k (SQLiteAdapter.delete k t) = none
  ∧ (k ∉ t.map Prod.fst →
      PostgresAdapter.delete k t = t ∧ SQLiteAdapter.delete k t = t
        ∧ PostgresAdapter.load k t = none ∧ SQLiteAdapter.load k t = none) := by
  have hfind : (t.filter (fun r => r.1 ≠ k)).find? (fun r => r.1 = k) = none :=
    SQLiteAdapter.find?_filter_ne k t
  refine ⟨?_, ?_, ?_⟩
  · unfold PostgresAdapter.load PostgresAdapter.delete
    simp [hfind]
  · unfold SQLiteAdapter.load SQLiteAdapter.delete
    simp [hfind]
  · intro habs
    have hne : ∀ x ∈ t, x.1 ≠ k := by
      intro x hx hxk
      exact habs (List.mem_map.mpr ⟨x, hx, hxk⟩)
    have hself : t.filter (fun r => r.1 ≠ k) = t := by
      rw [List.filter_eq_self]
      intro a ha
      simpa using hne a ha
    have hnone : t.find? (fun r => r.1 = k) = none := by
      rw [List.find?_eq_none]
      intro x hx hpx
      exact hne x hx (by simpa using hpx)
    exact ⟨hself, hself, by unfold PostgresAdapter.load; simp [hnone],
      by unfold SQLiteAdapter.load; simp [hnone]⟩

/-- Witness for C7 at a concrete key absent from a one-row table. -/
theorem delete_then_load_not_found_witness :
    PostgresAdapter.load ("x") (PostgresAdapter.delete ("x") [(("y"), [])]) = none
  ∧ SQLiteAdapter.load ("x") (SQLiteAdapter.delete ("x") [(("y"), [])]) = none
  ∧ (PostgresAdapter.delete ("x") [(("y"), [])] = [(("y"), [])]
      ∧ SQLiteAdapter.delete ("x") [(("y"), [])] = [(("y"), [])]
      ∧ PostgresAdapter.load ("x") [(("y"), [])] = none
      ∧ SQLiteAdapter.load ("x") [(("y"), [])] = none) :=
  ⟨(delete_then_load_not_found ("x") [(("y"), [])]).1,
   (delete_then_load_not_found ("x") [(("y"), [])]).2.1,
   (delete_then_load_not_found ("x") [(("y"), [])]).2.2 (by decide)⟩

end Aiframe

namespace Aiframe

namespace MigrationRunner

theorem mem_insertByKey (key : α → Int) (a x : α) :
    ∀ l : List α, x ∈ insertByKey key a l ↔ x = a ∨ x ∈ l
  | [] => by simp [insertByKey]
  | b :: bs => by
    by_cases h : key b ≤ key a
    · simp only [insertByKey, if_pos h, List.mem_cons, mem_insertByKey key a x bs]
      tauto
    · simp only [insertByKey, if_neg h, List.mem_cons]

theorem pairwise_insertByKey (key : α → Int) (a : α) :
    ∀ l : List α, l.Pairwise (fun x y => key x ≤ key y) →
      (insertByKey key a l).Pairwise (fun x y => key x ≤ key y)
  | [], _ => by simp [insertByKey]
  | b :: bs, h => by
    rw [List.pairwise_cons] at h
    by_cases hle : key b ≤ key a
    · rw [insertByKey, if_pos hle, List.pairwise_cons]
      refine ⟨?_, pairwise_insertByKey key a bs h.2⟩
      intro y hy
      rcases (mem_insertByKey key a y bs).mp hy with rfl | hy'
      · exact hle
      · exact h.1 y hy'
    · rw [insertByKey, if_neg hle, List.pairwise_cons]
      have hab : key a ≤ key b := le_of_lt (lt_of_not_le hle)
      refine ⟨?_, List.pairwise_cons.mpr h⟩
      intro y hy
      rcases List.mem_cons.mp hy with rfl | hy'
      · exact hab
      · exact le_trans hab (h.1 y hy')

theorem pairwise_stableSortBy (key : α → Int) (l : List α) :
    (stableSortBy key l).Pairwise (fun x y => key x ≤ key y) := by
  suffices h : ∀ acc : List α, acc.Pairwise (fun x y => key x ≤ key y) →
      (l.foldl (fun acc a => insertByKey key a acc) acc).Pairwise
        (fun x y => key x ≤ key y) by
    exact h [] List.Pairwise.nil
  induction l with
  | nil => intro acc hacc; exact hacc
  | cons a rest ih =>
    intro acc hacc
    exact ih (insertByKey key a acc) (pairwise_insertByKey key a acc hacc)

theorem mem_stableSortBy (key : α → Int) (x : α) (l : List α) :
    x ∈ stableSortBy key l ↔ x ∈ l := by
  suffices h : ∀ acc : List α,
      (x ∈ l.foldl (fun acc a => insertByKey key a acc) acc ↔ x ∈ acc ∨ x ∈ l) by
    have := h []
    simpa using this
  induction l with
  | nil => intro acc; simp
  | cons a rest ih =>
    intro acc
    rw [List.foldl_cons, ih (insertByKey key a acc)]
    rw [mem_insertByKey]
    simp only [List.mem_cons]
    tauto

theorem upLoop_fail_fast (batch : Int) (good : List Migration) (bad : Migration)
    (rest : List Migration)
    (hgood : ∀ m ∈ good, m.upOk = true) (hbad : bad.upOk = false) :
    ∀ table : List MigrationRecord,
      upLoop batch (good ++ bad :: rest) table
        = (good.map (fun m => ⟨m.id, m.name, MStatus.success⟩)
             ++ [⟨bad.id, bad.name, MStatus.error⟩],
           table ++ good.map (fun m => recordOf m batch)) := by
  induction good with
  | nil =>
    intro table
    simp [upLoop, hbad]
  | cons m ms ih =>
    intro table
    have hm : m.upOk = true := hgood m (List.mem_cons_self m ms)
    have ih' := ih (fun x hx => hgood x (List.mem_cons_of_mem m hx))
    simp only [List.cons_append, upLoop, hm, if_true, List.append_eq,
      ih' (table ++ [recordOf m batch]), List.map_cons, List.append_assoc,
      List.singleton_append, List.nil_append]

/-- Claim C3: `up` applies the pending migrations one at a time in
ascending timestamp order; when one of them fails, the results are
exactly the successful prefix followed by that migration's error entry,
the applied records grow by exactly the successful prefix (the failed
migration's record insert is rolled back with its transaction), and no
later pending migration is attempted. -/
theorem up_pending_ascending_fail_fast (table : List MigrationRecord)
    (ms good : List Migration) (bad : Migration) (rest : List Migration)
    (hsplit : pendingOf (getAppliedMigrations table) ms = good ++ bad :: rest)
    (hgood : ∀ m ∈ good, m.upOk = true)
    (hbad : bad.upOk = false) :
    (pendingOf (getAppliedMigrations table) ms).Pairwise
        (fun a b => a.timestamp ≤ b.timestamp)
  ∧ (up table ms).1
      = good.map (fun m => ⟨m.id, m.name, MStatus.success⟩)
          ++ [⟨bad.id, bad.name, MStatus.error⟩]
  ∧ (up table ms).2
      = table ++ good.map
          (fun m => recordOf m (latestBatchUp (getAppliedMigrations table) + 1)) := by
  refine ⟨?_, ?_⟩
  · unfold pendingOf loadMigrations
    exact List.Pairwise.sublist (List.filter_sublist _)
      (pairwise_stableSortBy (fun m => m.timestamp) ms)
  · simp only [up]
    rw [hsplit, upLoop_fail_fast _ good bad rest hgood hbad table]
    exact ⟨rfl, rfl⟩

end MigrationRunner

end Aiframe

namespace Aiframe

namespace MigrationRunner

theorem downLoop_all_ok (ms : List Migration) :
    ∀ (sel table : List MigrationRecord),
      (∀ r ∈ sel, ((ms.find? (fun x => x.id = r.id)).any (fun m => m.downOk)) = true) →
      (downLoop ms sel table).1.map (fun res => res.id) = sel.map (fun r => r.id)
      ∧ (∀ res ∈ (downLoop ms sel table).1, res.status = MStatus.success)
      ∧ (downLoop ms sel table).2
          = table.filter (fun x => ¬ sel.any (fun s => s.id = x.id))
  | [], table, _ => by
    simp [downLoop]
  | r :: rest, table, h => by
    have hr := h r (List.mem_cons_self r rest)
    cases hfind : ms.find? (fun x => x.id = r.id) with
    | none =>
      rw [hfind] at hr
      simp [Option.any] at hr
    | some m =>
      rw [hfind] at hr
      have hdown : m.downOk = true := by simpa [Option.any] using hr
      have hid : m.id = r.id := by
        have := List.find?_some hfind
        simpa using this
      have ih := downLoop_all_ok ms rest (table.filter (fun x => x.id ≠ m.id))
        (fun x hx => h x (List.mem_cons_of_mem r hx))
      rw [hid] at ih
      have hsnd : (table.filter (fun x => x.id ≠ r.id)).filter
            (fun x => ¬ rest.any (fun s => s.id = x.id))
          = table.filter (fun x => ¬ (r :: rest).any (fun s => s.id = x.id)) := by
        rw [List.filter_filter]
        apply List.filter_congr
        intro x _
        by_cases hx1 : r.id = x.id
        · simp [List.any_cons, hx1]
        · have hx1' : ¬ x.id = r.id := fun hxr => hx1 hxr.symm
          by_cases hx2 : rest.any (fun s => s.id = x.id) = true <;>
            simp [List.any_cons, hx1, hx1', hx2]
      simp only [downLoop, hfind, hdown, if_true]
      rw [hid]
      refine ⟨?_, ?_, ?_⟩
      · simp only [List.map_cons, ih.1]
      · intro res hres
        rcases List.mem_cons.mp hres with rfl | hres'
        · rfl
        · exact ih.2.1 res hres'
      · rw [ih.2.2]
        exact hsnd

theorem jsSlice_neg_of_pos (l : List α) (steps : Nat) (h : 1 ≤ steps) :
    jsSlice l (-(steps : Int)) = l.drop (l.length - steps) := by
  unfold jsSlice
  rw [if_pos (by omega : -(steps : Int) < 0)]
  congr 1
  rw [Int.max_def]
  split <;> omega

theorem jsSlice_zero (l : List α) : jsSlice l 0 = l := by
  unfold jsSlice
  rw [if_neg (by omega)]
  have hm : min (0 : Int) (l.length : Int) = 0 := by
    rw [Int.min_def]
    split <;> omega
  rw [hm]
  rfl

theorem mem_jsSlice (l : List α) (s : Int) (x : α) (hx : x ∈ jsSlice l s) : x ∈ l := by
  unfold jsSlice at hx
  split at hx <;> exact List.drop_subset _ _ hx

theorem rollbackSelection_some (steps : Int) (applied : List MigrationRecord)
    (lb : Int) (hlb : latestBatchDown applied = some lb) :
    rollbackSelection steps applied
      = (jsSlice (applied.filter (fun r => r.batch = lb)) (-steps)).reverse := by
  unfold rollbackSelection
  rw [hlb]

theorem rollbackSelection_pos (steps : Nat) (h : 1 ≤ steps)
    (applied : List MigrationRecord) (lb : Int)
    (hlb : latestBatchDown applied = some lb) :
    rollbackSelection (steps : Int) applied
      = ((applied.filter (fun r => r.batch = lb)).drop
          ((applied.filter (fun r => r.batch = lb)).length - steps)).reverse := by
  rw [rollbackSelection_some (steps : Int) applied lb hlb,
    jsSlice_neg_of_pos _ steps h]

theorem rollbackSelection_zero (applied : List MigrationRecord) (lb : Int)
    (hlb : latestBatchDown applied = some lb) :
    rollbackSelection 0 applied
      = (applied.filter (fun r => r.batch = lb)).reverse := by
  rw [rollbackSelection_some 0 applied lb hlb,
    show (-(0 : Int)) = (0 : Int) from rfl, jsSlice_zero]

theorem mem_getAppliedMigrations (r : MigrationRecord)
    (table : List MigrationRecord) :
    r ∈ getAppliedMigrations table ↔ r ∈ table := by
  unfold getAppliedMigrations
  exact mem_stableSortBy _ r table

theorem mem_rollbackSelection (steps : Int) (applied : List MigrationRecord)
    (lb : Int) (hlb : latestBatchDown applied = some lb)
    (r : MigrationRecord) (hr : r ∈ rollbackSelection steps applied) :
    r.batch = lb ∧ r ∈ applied := by
  rw [rollbackSelection_some steps applied lb hlb] at hr
  rw [List.mem_reverse] at hr
  have hmem := mem_jsSlice _ _ _ hr
  have hsplit := List.mem_filter.mp hmem
  exact ⟨by simpa using hsplit.2, hsplit.1⟩

end MigrationRunner

/-- Claim C4: for `steps ≥ 1`, `down(steps)` selects the last `steps`
applied records of the latest batch in applied order and rolls them back
in reverse-application order — each success deleting exactly that record
— and records of earlier batches always survive (given the metadata
table's unique ids and that every selected migration is found and rolls
back cleanly). -/
theorem down_rolls_back_latest_batch_tail (steps : Nat)
    (table : List MigrationRunner.MigrationRecord)
    (ms : List MigrationRunner.Migration) (lb : Int)
    (hsteps : 1 ≤ steps)
    (hlb : MigrationRunner.latestBatchDown (MigrationRunner.getAppliedMigrations table)
        = some lb)
    (hids : (table.map (fun r => r.id)).Nodup)
    (hfound : ∀ r ∈ MigrationRunner.rollbackSelection (steps : Int)
        (MigrationRunner.getAppliedMigrations table),
        (((MigrationRunner.loadMigrations ms).find? (fun x => x.id = r.id)).any
          (fun m => m.downOk)) = true) :
    MigrationRunner.rollbackSelection (steps : Int)
        (MigrationRunner.getAppliedMigrations table)
      = (((MigrationRunner.getAppliedMigrations table).filter
            (fun r => r.batch = lb)).drop
          (((MigrationRunner.getAppliedMigrations table).filter
            (fun r => r.batch = lb)).length - steps)).reverse
  ∧ (MigrationRunner.down (steps : Int) table ms).1.map (fun res => res.id)
      = (MigrationRunner.rollbackSelection (steps : Int)
          (MigrationRunner.getAppliedMigrations table)).map (fun r => r.id)
  ∧ (∀ res ∈ (MigrationRunner.down (steps : Int) table ms).1,
      res.status = MigrationRunner.MStatus.success)
  ∧ (MigrationRunner.down (steps : Int) table ms).2
      = table.filter (fun x =>
          ¬ (MigrationRunner.rollbackSelection (steps : Int)
              (MigrationRunner.getAppliedMigrations table)).any
            (fun s => s.id = x.id))
  ∧ (∀ r ∈ table, r.batch ≠ lb →
      r ∈ (MigrationRunner.down (steps : Int) table ms).2) := by
  have hloop := MigrationRunner.downLoop_all_ok (MigrationRunner.loadMigrations ms)
    (MigrationRunner.rollbackSelection (steps : Int)
      (MigrationRunner.getAppliedMigrations table)) table hfound
  have hdown1 : MigrationRunner.down (steps : Int) table ms
      = MigrationRunner.downLoop (MigrationRunner.loadMigrations ms)
          (MigrationRunner.rollbackSelection (steps : Int)
            (MigrationRunner.getAppliedMigrations table)) table := rfl
  refine ⟨MigrationRunner.rollbackSelection_pos steps hsteps _ lb hlb, ?_, ?_, ?_, ?_⟩
  · rw [hdown1]
    exact hloop.1
  · rw [hdown1]
    exact hloop.2.1
  · rw [hdown1]
    exact hloop.2.2
  · intro r hr hbatch
    rw [hdown1, hloop.2.2, List.mem_filter]
    refine ⟨hr, ?_⟩
    simp only [decide_eq_true_eq]
    intro hany
    obtain ⟨s, hs, hsid⟩ := List.any_eq_true.mp hany
    have hsid' : s.id = r.id := by simpa using hsid
    have hsmem := MigrationRunner.mem_rollbackSelection _ _ lb hlb s hs
    have hstable : s ∈ table :=
      (MigrationRunner.mem_getAppliedMigrations s table).mp hsmem.2
    have hsr : s = r := List.inj_on_of_nodup_map hids hstable hr hsid'
    rw [hsr] at hsmem
    exact hbatch hsmem.1

/-- Witness for C4: one batch of three applied migrations; `down(1)`
rolls back only the last and leaves the first two applied. -/
theorem down_rolls_back_latest_batch_tail_witness :
    (1 : Nat) ≤ 1
  ∧ MigrationRunner.rollbackSelection ((1 : Nat) : Int)
      (MigrationRunner.getAppliedMigrations
        [⟨("m1"), ("001"), 1, 1⟩, ⟨("m2"), ("002"), 2, 1⟩, ⟨("m3"), ("003"), 3, 1⟩])
      = [⟨("m3"), ("003"), 3, 1⟩]
  ∧ (MigrationRunner.down ((1 : Nat) : Int)
      [⟨("m1"), ("001"), 1, 1⟩, ⟨("m2"), ("002"), 2, 1⟩, ⟨("m3"), ("003"), 3, 1⟩]
      [⟨("m1"), ("001"), 1, true, true⟩, ⟨("m2"), ("002"), 2, true, true⟩,
       ⟨("m3"), ("003"), 3, true, true⟩]).2
      = [⟨("m1"), ("001"), 1, 1⟩, ⟨("m2"), ("002"), 2, 1⟩] := by
  have h := down_rolls_back_latest_batch_tail 1
    [⟨("m1"), ("001"), 1, 1⟩, ⟨("m2"), ("002"), 2, 1⟩, ⟨("m3"), ("003"), 3, 1⟩]
    [⟨("m1"), ("001"), 1, true, true⟩, ⟨("m2"), ("002"), 2, true, true⟩,
     ⟨("m3"), ("003"), 3, true, true⟩]
    1 (by decide) (by decide) (by decide) (by decide)
  refine ⟨by decide, ?_, ?_⟩
  · rw [h.1]
    decide
  · rw [h.2.2.2.1]
    decide

/-- Claim C10: `down(0)` selects the whole latest batch rather than
nothing, because `slice(-0)` is `slice(0)` — the entire array — and (with
every migration found and succeeding) rolls back every record of the
latest batch. -/
theorem down_zero_rolls_back_whole_latest_batch
    (table : List MigrationRunner.MigrationRecord)
    (ms : List MigrationRunner.Migration) (lb : Int)
    (hlb : MigrationRunner.latestBatchDown (MigrationRunner.getAppliedMigrations table)
        = some lb)
    (hfound : ∀ r ∈ MigrationRunner.rollbackSelection 0
        (MigrationRunner.getAppliedMigrations table),
        (((MigrationRunner.loadMigrations ms).find? (fun x => x.id = r.id)).any
          (fun m => m.downOk)) = true) :
    MigrationRunner.rollbackSelection 0 (MigrationRunner.getAppliedMigrations table)
      = ((MigrationRunner.getAppliedMigrations table).filter
          (fun r => r.batch = lb)).reverse
  ∧ (MigrationRunner.down 0 table ms).1.map (fun res => res.id)
      = (MigrationRunner.rollbackSelection 0
          (MigrationRunner.getAppliedMigrations table)).map (fun r => r.id)
  ∧ (∀ res ∈ (MigrationRunner.down 0 table ms).1,
      res.status = MigrationRunner.MStatus.success)
  ∧ (MigrationRunner.down 0 table ms).2
      = table.filter (fun x =>
          ¬ (MigrationRunner.rollbackSelection 0
              (MigrationRunner.getAppliedMigrations table)).any
            (fun s => s.id = x.id)) := by
  have hloop := MigrationRunner.downLoop_all_ok (MigrationRunner.loadMigrations ms)
    (MigrationRunner.rollbackSelection 0 (MigrationRunner.getAppliedMigrations table))
    table hfound
  exact ⟨MigrationRunner.rollbackSelection_zero _ lb hlb, hloop.1, hloop.2.1, hloop.2.2⟩

/-- Witness for C10: two applied migrations in one batch; `down(0)`
rolls back both, leaving the metadata table empty. -/
theorem down_zero_rolls_back_whole_latest_batch_witness :
    MigrationRunner.rollbackSelection 0
      (MigrationRunner.getAppliedMigrations
        [⟨("m1"), ("001"), 1, 1⟩, ⟨("m2"), ("002"), 2, 1⟩])
      = [⟨("m2"), ("002"), 2, 1⟩, ⟨("m1"), ("001"), 1, 1⟩]
  ∧ (MigrationRunner.down 0
      [⟨("m1"), ("001"), 1, 1⟩, ⟨("m2"), ("002"), 2, 1⟩]
      [⟨("m1"), ("001"), 1, true, true⟩, ⟨("m2"), ("002"), 2, true, true⟩]).2
      = [] := by
  have h := down_zero_rolls_back_whole_latest_batch
    [⟨("m1"), ("001"), 1, 1⟩, ⟨("m2"), ("002"), 2, 1⟩]
    [⟨("m1"), ("001"), 1, true, true⟩, ⟨("m2"), ("002"), 2, true, true⟩]
    1 (by decide) (by decide)
  refine ⟨?_, ?_⟩
  · rw [h.1]
    decide
  · rw [h.2.2.2]
    decide

end Aiframe

namespace Aiframe

/-- Witness for C3: three pending migrations with timestamps 1, 2, 3
where the second one's `up` throws — migration 1 is applied, migration 2
reported as the error, migration 3 never attempted. -/
theorem up_pending_ascending_fail_fast_witness :
    (MigrationRunner.pendingOf (MigrationRunner.getAppliedMigrations [])
        [⟨("m1"), ("001"), 1, true, true⟩, ⟨("m2"), ("002"), 2, false, true⟩,
         ⟨("m3"), ("003"), 3, true, true⟩]).Pairwise
        (fun a b => a.timestamp ≤ b.timestamp)
  ∧ (MigrationRunner.up []
        [⟨("m1"), ("001"), 1, true, true⟩, ⟨("m2"), ("002"), 2, false, true⟩,
         ⟨("m3"), ("003"), 3, true, true⟩]).1
      = [⟨("m1"), ("001"), MigrationRunner.MStatus.success⟩,
         ⟨("m2"), ("002"), MigrationRunner.MStatus.error⟩]
  ∧ (MigrationRunner.up []
        [⟨("m1"), ("001"), 1, true, true⟩, ⟨("m2"), ("002"), 2, false, true⟩,
         ⟨("m3"), ("003"), 3, true, true⟩]).2
      = [⟨("m1"), ("001"), 1, 1⟩] := by
  have h := MigrationRunner.up_pending_ascending_fail_fast []
    [⟨("m1"), ("001"), 1, true, true⟩, ⟨("m2"), ("002"), 2, false, true⟩,
     ⟨("m3"), ("003"), 3, true, true⟩]
    [⟨("m1"), ("001"), 1, true, true⟩] ⟨("m2"), ("002"), 2, false, true⟩
    [⟨("m3"), ("003"), 3, true, true⟩] (by decide) (by decide) (by decide)
  refine ⟨h.1, ?_, ?_⟩
  · rw [h.2.1]
    decide
  · rw [h.2.2]
    decide

end Aiframe

namespace Aiframe

theorem natDigitsAux_eq (fuel : Nat) :
    ∀ n : Nat, n ≤ fuel → natDigitsAux fuel n = Nat.digits 10 n := by
  induction fuel with
  | zero =>
    intro n hn
    have : n = 0 := Nat.le_zero.mp hn
    subst this
    rw [Nat.digits_zero, natDigitsAux]
  | succ fuel ih =>
    intro n hn
    match n with
    | 0 => rw [Nat.digits_zero, natDigitsAux]
    | m + 1 =>
      have hdiv : (m + 1) / 10 ≤ fuel := by
        have : (m + 1) / 10 < m + 1 := Nat.div_lt_self (Nat.succ_pos m) (by omega)
        omega
      rw [natDigitsAux, ih ((m + 1) / 10) hdiv,
        Nat.digits_def' (by omega : 1 < 10) (Nat.succ_pos m)]

theorem natDigits_eq (n : Nat) : natDigits n = Nat.digits 10 n :=
  natDigitsAux_eq n n (Nat.le_refl n)

theorem digitChar_inj_lt :
    ∀ a < 10, ∀ b < 10, Nat.digitChar a = Nat.digitChar b → a = b := by decide

theorem digitChar_ne_dash : ∀ a < 10, Nat.digitChar a ≠ ('-' : Char) := by decide

theorem map_digitChar_inj :
    ∀ l1 l2 : List Nat, (∀ x ∈ l1, x < 10) → (∀ x ∈ l2, x < 10) →
      l1.map Nat.digitChar = l2.map Nat.digitChar → l1 = l2
  | [], [], _, _, _ => rfl
  | [], _ :: _, _, _, h => by simp at h
  | _ :: _, [], _, _, h => by simp at h
  | a :: l1, b :: l2, h1, h2, h => by
    rw [List.map_cons, List.map_cons] at h
    have hab : a = b :=
      digitChar_inj_lt a (h1 a (List.mem_cons_self a l1))
        b (h2 b (List.mem_cons_self b l2)) (List.head_eq_of_cons_eq h)
    have htail := map_digitChar_inj l1 l2
      (fun x hx => h1 x (List.mem_cons_of_mem a hx))
      (fun x hx => h2 x (List.mem_cons_of_mem b hx))
      (List.tail_eq_of_cons_eq h)
    rw [hab, htail]

theorem natDigits_lt (n : Nat) : ∀ d ∈ natDigits n, d < 10 := by
  rw [natDigits_eq]
  intro d hd
  exact Nat.digits_lt_base (by omega) hd

theorem natDecimal_inj (m n : Nat) (h : natDecimal m = natDecimal n) : m = n := by
  unfold natDecimal at h
  by_cases hm : m = 0 <;> by_cases hn : n = 0
  · omega
  · rw [if_pos hm, if_neg hn] at h
    have hdata := congrArg String.data h
    simp only [String.data] at hdata
    have : (natDigits n).map Nat.digitChar = [Nat.digitChar 0] := by
      have := congrArg List.reverse hdata
      simpa using this.symm
    have hzero : natDigits n = [0] :=
      map_digitChar_inj (natDigits n) [0] (natDigits_lt n) (by decide) this
    rw [natDigits_eq] at hzero
    have := congrArg (Nat.ofDigits 10) hzero
    rw [Nat.ofDigits_digits] at this
    simp [Nat.ofDigits] at this
    omega
  · rw [if_neg hm, if_pos hn] at h
    have hdata := congrArg String.data h
    simp only [String.data] at hdata
    have : (natDigits m).map Nat.digitChar = [Nat.digitChar 0] := by
      have := congrArg List.reverse hdata
      simpa using this
    have hzero : natDigits m = [0] :=
      map_digitChar_inj (natDigits m) [0] (natDigits_lt m) (by decide) this
    rw [natDigits_eq] at hzero
    have := congrArg (Nat.ofDigits 10) hzero
    rw [Nat.ofDigits_digits] at this
    simp [Nat.ofDigits] at this
    omega
  · rw [if_neg hm, if_neg hn] at h
    have hdata := congrArg String.data h
    simp only [String.data] at hdata
    have hmap : (natDigits m).map Nat.digitChar = (natDigits n).map Nat.digitChar := by
      have := congrArg List.reverse hdata
      simpa using this
    have := map_digitChar_inj _ _ (natDigits_lt m) (natDigits_lt n) hmap
    rw [natDigits_eq, natDigits_eq] at this
    exact Nat.digits_inj_iff.mp this

theorem natDecimal_head_ne_dash (n : Nat) :
    ∀ c, (natDecimal n).data = c :: ((natDecimal n).data).tail → c ≠ ('-' : Char) := by
  intro c hc
  unfold natDecimal at hc
  by_cases hn : n = 0
  · rw [if_pos hn] at hc
    simp only [String.data] at hc
    have hc0 : c = '0' := List.head_eq_of_cons_eq hc.symm
    rw [hc0]
    decide
  · rw [if_neg hn] at hc
    simp only [String.data] at hc
    have hcmem : c ∈ ((natDigits n).map Nat.digitChar).reverse := by
      rw [hc]
      exact List.mem_cons_self c _
    rw [List.mem_reverse] at hcmem
    obtain ⟨d, hd, hdc⟩ := List.mem_map.mp hcmem
    rw [hdc.symm] at *
    exact fun habs => digitChar_ne_dash d (natDigits_lt n d hd) (hdc ▸ habs)

theorem intDecimal_inj (m n : Int) (h : intDecimal m = intDecimal n) : m = n := by
  match m, n with
  | .ofNat a, .ofNat b =>
    rw [intDecimal, intDecimal] at h
    rw [natDecimal_inj a b h]
  | .negSucc a, .negSucc b =>
    rw [intDecimal, intDecimal] at h
    have hdata := congrArg String.data h
    rw [String.data_append, String.data_append] at hdata
    have : (natDecimal (a + 1)).data = (natDecimal (b + 1)).data :=
      List.append_cancel_left hdata
    have heq : natDecimal (a + 1) = natDecimal (b + 1) := String.ext this
    have hab : a = b := by
      have := natDecimal_inj (a + 1) (b + 1) heq
      omega
    rw [hab]
  | .ofNat a, .negSucc b =>
    rw [intDecimal, intDecimal] at h
    have hdata := congrArg String.data h
    rw [String.data_append] at hdata
    have hdash : ("-").data = ['-'] := rfl
    rw [hdash] at hdata
    exact absurd rfl
      (natDecimal_head_ne_dash a '-' (by rw [hdata]; rfl))
  | .negSucc a, .ofNat b =>
    rw [intDecimal, intDecimal] at h
    have hdata := congrArg String.data h.symm
    rw [String.data_append] at hdata
    have hdash : ("-").data = ['-'] := rfl
    rw [hdash] at hdata
    exact absurd rfl
      (natDecimal_head_ne_dash b '-' (by rw [hdata]; rfl))

theorem intDecimal_eq_iff (m n : Int) : (intDecimal m = intDecimal n) ↔ m = n :=
  ⟨intDecimal_inj m n, fun h => by rw [h]⟩

end Aiframe

namespace Aiframe

theorem clause_agree_of_alike (d : Doc) (kv : String × JsonVal)
    (h : ∀ v, docField d kv.1 = some v → typedAlike v kv.2 = true) :
    PostgresAdapter.jsonbClauseHolds d kv = SQLiteAdapter.extractClauseHolds d kv := by
  unfold PostgresAdapter.jsonbClauseHolds SQLiteAdapter.extractClauseHolds
  cases hf : docField d kv.1 with
  | none =>
    cases kv.2 <;> rfl
  | some v =>
    have halike := h v hf
    cases v with
    | str s =>
      cases hp : kv.2 with
      | str s2 =>
        simp [PostgresAdapter.pgFieldText, PostgresAdapter.pgParamText,
          SQLiteAdapter.sqliteValOfJson, SQLiteAdapter.sqliteBindParam, sqlEq]
      | num n => rw [hp] at halike; simp [typedAlike] at halike
      | bool b => rw [hp] at halike; simp [typedAlike] at halike
      | null => rfl
    | num m =>
      cases hp : kv.2 with
      | str s2 => rw [hp] at halike; simp [typedAlike] at halike
      | num n =>
        by_cases hmn : m = n
        · rw [hmn]
          simp [PostgresAdapter.pgFieldText, PostgresAdapter.pgParamText,
            SQLiteAdapter.sqliteValOfJson, SQLiteAdapter.sqliteBindParam, sqlEq]
        · have hd : intDecimal m ≠ intDecimal n :=
            fun habs => hmn (intDecimal_inj m n habs)
          simp [PostgresAdapter.pgFieldText, PostgresAdapter.pgParamText,
            SQLiteAdapter.sqliteValOfJson, SQLiteAdapter.sqliteBindParam, sqlEq,
            hmn, hd]
      | bool b => rw [hp] at halike; simp [typedAlike] at halike
      | null => rfl
    | bool a =>
      cases hp : kv.2 with
      | str s2 => rw [hp] at halike; simp [typedAlike] at halike
      | num n => rw [hp] at halike; simp [typedAlike] at halike
      | bool b =>
        cases a <;> cases b <;>
          simp [PostgresAdapter.pgFieldText, PostgresAdapter.pgParamText,
            SQLiteAdapter.sqliteValOfJson, SQLiteAdapter.sqliteBindParam, sqlEq]
      | null => rfl
    | null =>
      cases kv.2 <;> rfl

theorem rowMatches_agree (conds : Option (List (String × JsonVal))) (d : Doc)
    (h : ∀ kv ∈ conds.getD [], ∀ v, docField d kv.1 = some v →
        typedAlike v kv.2 = true) :
    PostgresAdapter.rowMatches conds d = SQLiteAdapter.rowMatches conds d := by
  cases conds with
  | none => rfl
  | some cs =>
    simp only [PostgresAdapter.rowMatches, SQLiteAdapter.rowMatches]
    have hiff : (cs.all (PostgresAdapter.jsonbClauseHolds d) = true)
        ↔ (cs.all (SQLiteAdapter.extractClauseHolds d) = true) := by
      rw [List.all_eq_true, List.all_eq_true]
      constructor
      · intro hall kv hkv
        rw [← clause_agree_of_alike d kv (h kv (by simpa using hkv))]
        exact hall kv hkv
      · intro hall kv hkv
        rw [clause_agree_of_alike d kv (h kv (by simpa using hkv))]
        exact hall kv hkv
    cases hpg : cs.all (PostgresAdapter.jsonbClauseHolds d) with
    | true => exact (hiff.mp hpg).symm
    | false =>
      cases hsq : cs.all (SQLiteAdapter.extractClauseHolds d) with
      | true => exact absurd (hiff.mpr hsq) (by simp [hpg])
      | false => rfl

theorem mem_conds_of_fields (f : Filter) (kv : String × JsonVal)
    (h : kv ∈ (PostgresAdapter.buildJsonbConditions f).getD []) :
    kv ∈ f.fields := by
  cases f with
  | malformed => simp [PostgresAdapter.buildJsonbConditions] at h
  | obj fs =>
    by_cases hemp : fs.isEmpty
    · simp [PostgresAdapter.buildJsonbConditions, hemp] at h
    · simp [PostgresAdapter.buildJsonbConditions, hemp] at h
      simpa [Filter.fields] using h

/-- Claim C8 counterexample: over the same single stored document
`{a: 1}`, the flat filter `{a: "1"}` matches on the Postgres adapter
(text comparison: `->>` renders the number as `1` and the parameter is
the text `1`) but not on the SQLite adapter (typed comparison: INTEGER 1
never equals TEXT `1`) — and the filter `{a: true}` matches on SQLite
(both sides INTEGER 1) but not on Postgres (`1` versus `true`), so the
two `query` implementations do not return the same result set for every
flat scalar filter. -/
theorem query_adapters_differ_on_cross_typed_filter :
    PostgresAdapter.query (Filter.obj [(("a"), JsonVal.str ("1"))])
        [(("k"), [(("a"), JsonVal.num 1)])]
      = [[(("a"), JsonVal.num 1)]]
  ∧ SQLiteAdapter.query (Filter.obj [(("a"), JsonVal.str ("1"))])
        [(("k"), [(("a"), JsonVal.num 1)])]
      = []
  ∧ SQLiteAdapter.query (Filter.obj [(("a"), JsonVal.bool true)])
        [(("k"), [(("a"), JsonVal.num 1)])]
      = [[(("a"), JsonVal.num 1)]]
  ∧ PostgresAdapter.query (Filter.obj [(("a"), JsonVal.bool true)])
        [(("k"), [(("a"), JsonVal.num 1)])]
      = [] := by
  refine ⟨?_, ?_, ?_, ?_⟩ <;> decide

/-- Claim C8 as amended: the SQLite adapter's `query` returns the same
result list as the Postgres adapter's `query` — one via
`json_extract(data, '$.field') = ?` typed comparison, the other via
`data->>'field' = $i` text comparison, with `1=1` for a non-object or
empty filter — whenever every filter value is compared within one scalar
type: each clause's value has the same JSON scalar type as the stored
field it meets (string with string, number with number, boolean with
boolean), or one side is null/absent, which matches nothing on both
engines. Cross-typed clauses are excluded: there the engines genuinely
disagree. -/
theorem query_adapters_agree_on_type_matched_filters (f : Filter) (t : Table)
    (h : ∀ kv ∈ f.fields, ∀ r ∈ t, ∀ v, docField r.2 kv.1 = some v →
        typedAlike v kv.2 = true) :
    PostgresAdapter.query f t = SQLiteAdapter.query f t := by
  simp only [PostgresAdapter.query, SQLiteAdapter.query]
  have hconds : SQLiteAdapter.buildQueryConditions f
      = PostgresAdapter.buildJsonbConditions f := by
    cases f <;> rfl
  rw [hconds]
  have hfilter : t.filter
        (fun r => PostgresAdapter.rowMatches (PostgresAdapter.buildJsonbConditions f) r.2)
      = t.filter
        (fun r => SQLiteAdapter.rowMatches (PostgresAdapter.buildJsonbConditions f) r.2) := by
    apply List.filter_congr
    intro r hr
    exact rowMatches_agree (PostgresAdapter.buildJsonbConditions f) r.2
      (fun kv hkv v hv => h kv (mem_conds_of_fields f kv hkv) r hr v hv)
  rw [hfilter]

/-- Witness for the amended C8 at the spec's own example shapes: two
documents with string and number fields, queried with the same-typed
filter `{type: "user", age: 30}` — both adapters return exactly the
matching document. -/
theorem query_adapters_agree_on_type_matched_filters_witness :
    PostgresAdapter.query
        (Filter.obj [(("type"), JsonVal.str ("user")), (("age"), JsonVal.num 30)])
        [(("k1"), [(("type"), JsonVal.str ("user")), (("age"), JsonVal.num 30)]),
         (("k2"), [(("type"), JsonVal.str ("admin")), (("age"), JsonVal.num 30)])]
      = SQLiteAdapter.query
        (Filter.obj [(("type"), JsonVal.str ("user")), (("age"), JsonVal.num 30)])
        [(("k1"), [(("type"), JsonVal.str ("user")), (("age"), JsonVal.num 30)]),
         (("k2"), [(("type"), JsonVal.str ("admin")), (("age"), JsonVal.num 30)])] :=
  query_adapters_agree_on_type_matched_filters
    (Filter.obj [(("type"), JsonVal.str ("user")), (("age"), JsonVal.num 30)])
    [(("k1"), [(("type"), JsonVal.str ("user")), (("age"), JsonVal.num 30)]),
     (("k2"), [(("type"), JsonVal.str ("admin")), (("age"), JsonVal.num 30)])]
    (by decide)

end Aiframe
